import Mathlib

/-!
Verification of the dijkies trading core: a shallow embedding of the
simulated-market execution engine (Ledger/`State`, `Order`, the
`BacktestExchangeAssetClient` fill engine), the backtest driver
(`Strategy.backtest` in `src/dijkies/strategy.py`) and the deployment
coordinator (`Bot` in `src/dijkies/deployment.py`).

The `executors` module itself is not part of the available sources (only its
tests, its callers and the spec describe it), so the Ledger and the execution
client are modelled from the spec, as documented on each definition.  The
backtest driver and the deployment coordinator are translated directly from
the Python sources.  Monetary amounts and prices are embedded as rationals;
timestamps as integers (minutes).
-/

namespace Dijkies

/-- Modelled from the spec (section 3, Data Model) and the `Order` fixture in
`tests/conftest.py`: an immutable intent record plus a lifecycle status.
`limit_price = none` encodes a market order.  `side` and `status` are the
Python string literals; `order_id` and `time_created` are drawn from one
monotone counter of the client. -/
structure Order where
  order_id : Nat
  market : String
  side : String
  limit_price : Option ℚ
  on_hold : ℚ
  status : String
  time_created : Nat
  is_taker : Bool
deriving DecidableEq, Repr

/-- One OHLCV candle, as consumed by the fill engine; the `open` and `close`
fields of the Python record are renamed because `open` is reserved. -/
structure Candle where
  openPrice : ℚ
  high : ℚ
  low : ℚ
  closePrice : ℚ
deriving DecidableEq, Repr

/-- Modelled from the spec (section 3) and the `State(base, total_base,
total_quote)` constructor used in `tests/conftest.py`: authoritative balances
and order collections for one base/quote pair. -/
structure State where
  base : String
  total_base : ℚ
  total_quote : ℚ
  quote_available : ℚ
  base_available : ℚ
  buy_orders : List Order
  sell_orders : List Order
  filled_orders : List Order
  cancelled_orders : List Order
  orders : List Order
  number_of_transactions : Nat
deriving DecidableEq, Repr

/-- Modelled from the spec: a fresh Ledger starts with no orders and with the
available balances equal to the totals. -/
def State.init (base : String) (total_base total_quote : ℚ) : State :=
  { base := base
    total_base := total_base
    total_quote := total_quote
    quote_available := total_quote
    base_available := total_base
    buy_orders := []
    sell_orders := []
    filled_orders := []
    cancelled_orders := []
    orders := []
    number_of_transactions := 0 }

/-- Modelled from the spec (section 3): `total_value_in_quote(price) =
total_quote + total_base * price` (pure). -/
def State.total_value_in_quote (s : State) (price : ℚ) : ℚ :=
  s.total_quote + s.total_base * price

/-- Modelled from the spec (section 4.1): `open_orders` is the derived union
of `buy_orders` and `sell_orders`. -/
def State.open_orders (s : State) : List Order :=
  s.buy_orders ++ s.sell_orders

/-- Sum of the `on_hold` reservations of a list of orders. -/
def sumOnHold (l : List Order) : ℚ :=
  (l.map Order.on_hold).sum

/-- Modelled from the spec (section 4.2): a buy limit order fills iff
`candle.low ≤ limit_price`.  Orders without a limit price never sit in the
open collections. -/
def fillsBuy (c : Candle) (o : Order) : Bool :=
  match o.limit_price with
  | some L => decide (c.low ≤ L)
  | none => false

/-- Modelled from the spec (section 4.2): a sell limit order fills iff
`candle.high ≥ limit_price`. -/
def fillsSell (c : Candle) (o : Order) : Bool :=
  match o.limit_price with
  | some L => decide (L ≤ c.high)
  | none => false

/-- Modelled from the spec (section 4.2): base received when a buy limit order
fills, `on_hold / limit_price * (1 - fee_limit_order)`. -/
def buyFillAmount (fee : ℚ) (o : Order) : ℚ :=
  match o.limit_price with
  | some L => o.on_hold / L * (1 - fee)
  | none => 0

/-- Modelled from the spec (section 4.2): quote received when a sell limit
order fills, `on_hold * limit_price * (1 - fee_limit_order)`. -/
def sellFillAmount (fee : ℚ) (o : Order) : ℚ :=
  match o.limit_price with
  | some L => o.on_hold * L * (1 - fee)
  | none => 0

/-- Set the stored status of the order with the given id inside the
append-only `orders` index (the Python code mutates the shared record; the
embedding rewrites the entry). -/
def markStatus (oid : Nat) (st : String) (l : List Order) : List Order :=
  l.map (fun o => if o.order_id = oid then { o with status := st } else o)

/-- Modelled from the spec (section 4.2, `update_state`, buy bullet): apply
one buy fill to the Ledger.  The reserved quote `on_hold` is consumed from
`total_quote` (it already left `quote_available` at placement), the base
received is credited to `total_base` and, being unreserved, to
`base_available`; the order is appended to `filled_orders` with status
`filled` and `number_of_transactions` is incremented (section 3:
`number_of_transactions` counts completed fills). -/
def fillBuyOrder (fee : ℚ) (o : Order) (s : State) : State :=
  { s with
    total_quote := s.total_quote - o.on_hold
    total_base := s.total_base + buyFillAmount fee o
    base_available := s.base_available + buyFillAmount fee o
    filled_orders := s.filled_orders ++ [{ o with status := "filled" }]
    orders := markStatus o.order_id "filled" s.orders
    number_of_transactions := s.number_of_transactions + 1 }

/-- Modelled from the spec (section 4.2, `update_state`, sell bullet): apply
one sell fill to the Ledger; symmetric to `fillBuyOrder`. -/
def fillSellOrder (fee : ℚ) (o : Order) (s : State) : State :=
  { s with
    total_base := s.total_base - o.on_hold
    total_quote := s.total_quote + sellFillAmount fee o
    quote_available := s.quote_available + sellFillAmount fee o
    filled_orders := s.filled_orders ++ [{ o with status := "filled" }]
    orders := markStatus o.order_id "filled" s.orders
    number_of_transactions := s.number_of_transactions + 1 }

/-- Modelled from the spec (section 4.2): sweep the open buy orders in
creation order against the current candle; orders that do not fill are put
back unchanged. -/
def processBuys (c : Candle) (fee : ℚ) : State → List Order → State
  | s, [] => s
  | s, o :: rest =>
    if fillsBuy c o then processBuys c fee (fillBuyOrder fee o s) rest
    else processBuys c fee { s with buy_orders := s.buy_orders ++ [o] } rest

/-- Modelled from the spec (section 4.2): sweep the open sell orders in
creation order against the current candle. -/
def processSells (c : Candle) (fee : ℚ) : State → List Order → State
  | s, [] => s
  | s, o :: rest =>
    if fillsSell c o then processSells c fee (fillSellOrder fee o s) rest
    else processSells c fee { s with sell_orders := s.sell_orders ++ [o] } rest

/-- Modelled from the spec (section 4.2, `update_state`): the reconciliation
step.  Every order still in `buy_orders`/`sell_orders` is evaluated against
the current candle in ascending `time_created`; placements append to the open
collections, so each collection is already in creation order and is swept in
list order (fills of buys and sells touch disjoint reservations, so the
interleaving between the two sides does not affect the resulting balances). -/
def update_state (c : Candle) (fee : ℚ) (s : State) : State :=
  let s1 := processBuys c fee { s with buy_orders := [] } s.buy_orders
  processSells c fee { s1 with sell_orders := [] } s1.sell_orders

/-- Modelled from the spec (section 7): the error taxonomy of the execution
client. -/
inductive ExecError where
  | insufficientBalance
  | orderNotCancellable
  | orderNotFound
  | noCurrentCandle
deriving DecidableEq, Repr

/-- Modelled from the spec (section 4.2) and
`BacktestExchangeAssetClient(state, fee_limit_order, fee_market_order)` in
`tests/test_state.py`: the simulated execution client.  `next_id` is the
monotone counter supplying `order_id` and `time_created`. -/
structure Client where
  state : State
  fee_limit_order : ℚ
  fee_market_order : ℚ
  current_candle : Option Candle
  next_id : Nat
deriving DecidableEq, Repr

/-- Build a fresh simulated client over a Ledger, as
`BacktestExchangeAssetClient(state, fee_limit_order, fee_market_order)`
does. -/
def Client.init (s : State) (fee_limit fee_market : ℚ) : Client :=
  { state := s
    fee_limit_order := fee_limit
    fee_market_order := fee_market
    current_candle := none
    next_id := 0 }

/-- Modelled from the spec (section 4.2): `set_current_candle` replaces the
reference candle used by the next `update_state`/market order; it never
mutates orders by itself. -/
def update_current_candle (cl : Client) (c : Candle) : Client :=
  { cl with current_candle := some c }

/-- The open buy order a limit buy placement creates: `on_hold =
amount_in_quote`, fresh id from the client's counter. -/
def placedBuyOrder (cl : Client) (base : String)
    (limit_price amount_in_quote : ℚ) : Order :=
  { order_id := cl.next_id, market := base, side := "buy"
    limit_price := some limit_price, on_hold := amount_in_quote
    status := "open", time_created := cl.next_id, is_taker := false }

/-- Modelled from the spec (section 4.2): `place_limit_buy_order(base,
limit_price, amount_in_quote)` requires `amount_in_quote ≤ quote_available`
and `limit_price > 0`, else fails with `InsufficientBalanceError`; on success
it creates an open buy order with `on_hold = amount_in_quote` and reserves it
from `quote_available` atomically with insertion into
`buy_orders`/`orders`. -/
def place_limit_buy_order (cl : Client) (base : String)
    (limit_price amount_in_quote : ℚ) : Except ExecError (Client × Order) :=
  if amount_in_quote ≤ cl.state.quote_available ∧ 0 < limit_price then
    let o : Order := placedBuyOrder cl base limit_price amount_in_quote
    Except.ok
      ({ cl with
          state := { cl.state with
            quote_available := cl.state.quote_available - amount_in_quote
            buy_orders := cl.state.buy_orders ++ [o]
            orders := cl.state.orders ++ [o] }
          next_id := cl.next_id + 1 }, o)
  else Except.error ExecError.insufficientBalance

/-- Modelled from the spec (section 4.2): `place_limit_sell_order`, symmetric
to the buy placement on the base balance. -/
def place_limit_sell_order (cl : Client) (base : String)
    (limit_price amount_in_base : ℚ) : Except ExecError (Client × Order) :=
  if amount_in_base ≤ cl.state.base_available ∧ 0 < limit_price then
    let o : Order :=
      { order_id := cl.next_id, market := base, side := "sell"
        limit_price := some limit_price, on_hold := amount_in_base
        status := "open", time_created := cl.next_id, is_taker := false }
    Except.ok
      ({ cl with
          state := { cl.state with
            base_available := cl.state.base_available - amount_in_base
            sell_orders := cl.state.sell_orders ++ [o]
            orders := cl.state.orders ++ [o] }
          next_id := cl.next_id + 1 }, o)
  else Except.error ExecError.insufficientBalance

/-- Modelled from the spec (section 4.2): `place_market_buy_order(base,
amount_in_quote)` executes immediately at the current candle's open price,
deducts `fee_market_order` from the acquired asset, sets status `filled`
directly, appends to `filled_orders`/`orders` bypassing the open collections,
and increments `number_of_transactions`.  The quote spent leaves both
`total_quote` and `quote_available`; the base acquired joins both
`total_base` and `base_available`. -/
def place_market_buy_order (cl : Client) (base : String)
    (amount_in_quote : ℚ) : Except ExecError (Client × Order) :=
  match cl.current_candle with
  | none => Except.error ExecError.noCurrentCandle
  | some c =>
    if amount_in_quote ≤ cl.state.quote_available then
      let received := amount_in_quote / c.openPrice * (1 - cl.fee_market_order)
      let o : Order :=
        { order_id := cl.next_id, market := base, side := "buy"
          limit_price := none, on_hold := amount_in_quote
          status := "filled", time_created := cl.next_id, is_taker := true }
      Except.ok
        ({ cl with
            state := { cl.state with
              total_quote := cl.state.total_quote - amount_in_quote
              quote_available := cl.state.quote_available - amount_in_quote
              total_base := cl.state.total_base + received
              base_available := cl.state.base_available + received
              filled_orders := cl.state.filled_orders ++ [o]
              orders := cl.state.orders ++ [o]
              number_of_transactions := cl.state.number_of_transactions + 1 }
            next_id := cl.next_id + 1 }, o)
    else Except.error ExecError.insufficientBalance

/-- Modelled from the spec (section 4.2): `place_market_sell_order(base,
amount_in_base)`, symmetric to the market buy on the base balance. -/
def place_market_sell_order (cl : Client) (base : String)
    (amount_in_base : ℚ) : Except ExecError (Client × Order) :=
  match cl.current_candle with
  | none => Except.error ExecError.noCurrentCandle
  | some c =>
    if amount_in_base ≤ cl.state.base_available then
      let received := amount_in_base * c.openPrice * (1 - cl.fee_market_order)
      let o : Order :=
        { order_id := cl.next_id, market := base, side := "sell"
          limit_price := none, on_hold := amount_in_base
          status := "filled", time_created := cl.next_id, is_taker := true }
      Except.ok
        ({ cl with
            state := { cl.state with
              total_base := cl.state.total_base - amount_in_base
              base_available := cl.state.base_available - amount_in_base
              total_quote := cl.state.total_quote + received
              quote_available := cl.state.quote_available + received
              filled_orders := cl.state.filled_orders ++ [o]
              orders := cl.state.orders ++ [o]
              number_of_transactions := cl.state.number_of_transactions + 1 }
            next_id := cl.next_id + 1 }, o)
    else Except.error ExecError.insufficientBalance

/-- Look an order up by id in a list of orders. -/
def getById (oid : Nat) : List Order → Option Order
  | [] => none
  | o :: rest => if o.order_id = oid then some o else getById oid rest

/-- Remove the first order with the given id from a list, returning it
together with the remaining list. -/
def removeById (oid : Nat) : List Order → Option (Order × List Order)
  | [] => none
  | o :: rest =>
    if o.order_id = oid then some (o, rest)
    else
      match removeById oid rest with
      | some p => some (p.1, o :: p.2)
      | none => none

/-- Modelled from the spec (section 4.2): `cancel_order` requires
`order.status == open`, else `OrderNotCancellableError`; it removes the order
from its open collection, restores `on_hold` exactly into the matching
available balance, sets status `cancelled` and moves it to
`cancelled_orders`.  An unknown id fails with `OrderNotFoundError`
(resolution goes through the Ledger's `orders` index, section 4.2). -/
def cancel_order (cl : Client) (oid : Nat) : Except ExecError (Client × Order) :=
  match getById oid cl.state.orders with
  | none => Except.error ExecError.orderNotFound
  | some stored =>
    if stored.status ≠ "open" then Except.error ExecError.orderNotCancellable
    else if stored.side = "buy" then
      match removeById oid cl.state.buy_orders with
      | none => Except.error ExecError.orderNotFound
      | some p =>
        Except.ok
          ({ cl with
              state := { cl.state with
                buy_orders := p.2
                quote_available := cl.state.quote_available + p.1.on_hold
                cancelled_orders :=
                  cl.state.cancelled_orders ++ [{ p.1 with status := "cancelled" }]
                orders := markStatus oid "cancelled" cl.state.orders } },
            { p.1 with status := "cancelled" })
    else
      match removeById oid cl.state.sell_orders with
      | none => Except.error ExecError.orderNotFound
      | some p =>
        Except.ok
          ({ cl with
              state := { cl.state with
                sell_orders := p.2
                base_available := cl.state.base_available + p.1.on_hold
                cancelled_orders :=
                  cl.state.cancelled_orders ++ [{ p.1 with status := "cancelled" }]
                orders := markStatus oid "cancelled" cl.state.orders } },
            { p.1 with status := "cancelled" })

/-- Modelled from the spec (section 4.2): `get_order_info` resolves by id
through the Ledger's `orders` index and returns the current stored record;
fails with `OrderNotFoundError` if the id is unknown. -/
def get_order_info (cl : Client) (oid : Nat) : Except ExecError Order :=
  match getById oid cl.state.orders with
  | some o => Except.ok o
  | none => Except.error ExecError.orderNotFound

/-- Modelled from the spec (section 4.2): the client-level `update_state`,
reconciling the Ledger against the current candle with the client's
limit-order fee.  With no candle set yet there is nothing to reconcile. -/
def client_update_state (cl : Client) : Client :=
  match cl.current_candle with
  | none => cl
  | some c => { cl with state := update_state c cl.fee_limit_order cl.state }

/-- Total base credited by a list of buy fills. -/
def sumBuyFill (fee : ℚ) (l : List Order) : ℚ :=
  (l.map (buyFillAmount fee)).sum

/-- Total quote credited by a list of sell fills. -/
def sumSellFill (fee : ℚ) (l : List Order) : ℚ :=
  (l.map (sellFillAmount fee)).sum

theorem sumOnHold_nil : sumOnHold [] = 0 := rfl

theorem sumOnHold_cons (o : Order) (l : List Order) :
    sumOnHold (o :: l) = o.on_hold + sumOnHold l := by
  simp [sumOnHold]

theorem sumOnHold_append (l₁ l₂ : List Order) :
    sumOnHold (l₁ ++ l₂) = sumOnHold l₁ + sumOnHold l₂ := by
  simp [sumOnHold]

theorem sumOnHold_filter_partition (p : Order → Bool) (l : List Order) :
    sumOnHold l
      = sumOnHold (l.filter p) + sumOnHold (l.filter (fun o => !p o)) := by
  induction l with
  | nil => simp [sumOnHold]
  | cons o rest ih =>
    by_cases h : p o <;>
      simp [List.filter_cons, h, sumOnHold_cons, ih] <;> ring

theorem processBuys_base (c : Candle) (fee : ℚ) (l : List Order) :
    ∀ s : State, (processBuys c fee s l).base = s.base := by
  induction l with
  | nil => intro s; rfl
  | cons o rest ih =>
    intro s
    simp only [processBuys]
    split <;> rw [ih] <;> rfl

theorem processBuys_sell_orders (c : Candle) (fee : ℚ) (l : List Order) :
    ∀ s : State, (processBuys c fee s l).sell_orders = s.sell_orders := by
  induction l with
  | nil => intro s; rfl
  | cons o rest ih =>
    intro s
    simp only [processBuys]
    split <;> rw [ih] <;> rfl

theorem processBuys_cancelled_orders (c : Candle) (fee : ℚ) (l : List Order) :
    ∀ s : State, (processBuys c fee s l).cancelled_orders = s.cancelled_orders := by
  induction l with
  | nil => intro s; rfl
  | cons o rest ih =>
    intro s
    simp only [processBuys]
    split <;> rw [ih] <;> rfl

theorem processBuys_quote_available (c : Candle) (fee : ℚ) (l : List Order) :
    ∀ s : State, (processBuys c fee s l).quote_available = s.quote_available := by
  induction l with
  | nil => intro s; rfl
  | cons o rest ih =>
    intro s
    simp only [processBuys]
    split <;> rw [ih] <;> rfl

theorem processBuys_buy_orders (c : Candle) (fee : ℚ) (l : List Order) :
    ∀ s : State, (processBuys c fee s l).buy_orders
      = s.buy_orders ++ l.filter (fun o => !fillsBuy c o) := by
  induction l with
  | nil => intro s; simp [processBuys]
  | cons o rest ih =>
    intro s
    simp only [processBuys]
    by_cases h : fillsBuy c o
    · rw [if_pos h, ih]
      simp [fillBuyOrder, List.filter_cons, h]
    · rw [if_neg h, ih]
      simp [List.filter_cons, h]

theorem processBuys_filled_orders (c : Candle) (fee : ℚ) (l : List Order) :
    ∀ s : State, (processBuys c fee s l).filled_orders
      = s.filled_orders
          ++ (l.filter (fillsBuy c)).map (fun o => { o with status := "filled" }) := by
  induction l with
  | nil => intro s; simp [processBuys]
  | cons o rest ih =>
    intro s
    simp only [processBuys]
    by_cases h : fillsBuy c o
    · rw [if_pos h, ih]
      simp [fillBuyOrder, List.filter_cons, h]
    · rw [if_neg h, ih]
      simp [List.filter_cons, h]

theorem processBuys_total_quote (c : Candle) (fee : ℚ) (l : List Order) :
    ∀ s : State, (processBuys c fee s l).total_quote
      = s.total_quote - sumOnHold (l.filter (fillsBuy c)) := by
  induction l with
  | nil => intro s; simp [processBuys, sumOnHold]
  | cons o rest ih =>
    intro s
    simp only [processBuys]
    by_cases h : fillsBuy c o
    · rw [if_pos h, ih]
      simp [fillBuyOrder, List.filter_cons, h, sumOnHold_cons]
      ring
    · rw [if_neg h, ih]
      simp [List.filter_cons, h]

theorem processBuys_total_base (c : Candle) (fee : ℚ) (l : List Order) :
    ∀ s : State, (processBuys c fee s l).total_base
      = s.total_base + sumBuyFill fee (l.filter (fillsBuy c)) := by
  induction l with
  | nil => intro s; simp [processBuys, sumBuyFill]
  | cons o rest ih =>
    intro s
    simp only [processBuys]
    by_cases h : fillsBuy c o
    · rw [if_pos h, ih]
      simp [fillBuyOrder, List.filter_cons, h, sumBuyFill]
      ring
    · rw [if_neg h, ih]
      simp [List.filter_cons, h]

theorem processBuys_base_available (c : Candle) (fee : ℚ) (l : List Order) :
    ∀ s : State, (processBuys c fee s l).base_available
      = s.base_available + sumBuyFill fee (l.filter (fillsBuy c)) := by
  induction l with
  | nil => intro s; simp [processBuys, sumBuyFill]
  | cons o rest ih =>
    intro s
    simp only [processBuys]
    by_cases h : fillsBuy c o
    · rw [if_pos h, ih]
      simp [fillBuyOrder, List.filter_cons, h, sumBuyFill]
      ring
    · rw [if_neg h, ih]
      simp [List.filter_cons, h]

theorem processBuys_number_of_transactions (c : Candle) (fee : ℚ) (l : List Order) :
    ∀ s : State, (processBuys c fee s l).number_of_transactions
      = s.number_of_transactions + (l.filter (fillsBuy c)).length := by
  induction l with
  | nil => intro s; simp [processBuys]
  | cons o rest ih =>
    intro s
    simp only [processBuys]
    by_cases h : fillsBuy c o
    · rw [if_pos h, ih]
      simp [fillBuyOrder, List.filter_cons, h]
      ring
    · rw [if_neg h, ih]
      simp [List.filter_cons, h]

theorem processSells_base (c : Candle) (fee : ℚ) (l : List Order) :
    ∀ s : State, (processSells c fee s l).base = s.base := by
  induction l with
  | nil => intro s; rfl
  | cons o rest ih =>
    intro s
    simp only [processSells]
    split <;> rw [ih] <;> rfl

theorem processSells_buy_orders (c : Candle) (fee : ℚ) (l : List Order) :
    ∀ s : State, (processSells c fee s l).buy_orders = s.buy_orders := by
  induction l with
  | nil => intro s; rfl
  | cons o rest ih =>
    intro s
    simp only [processSells]
    split <;> rw [ih] <;> rfl

theorem processSells_cancelled_orders (c : Candle) (fee : ℚ) (l : List Order) :
    ∀ s : State, (processSells c fee s l).cancelled_orders = s.cancelled_orders := by
  induction l with
  | nil => intro s; rfl
  | cons o rest ih =>
    intro s
    simp only [processSells]
    split <;> rw [ih] <;> rfl

theorem processSells_base_available (c : Candle) (fee : ℚ) (l : List Order) :
    ∀ s : State, (processSells c fee s l).base_available = s.base_available := by
  induction l with
  | nil => intro s; rfl
  | cons o rest ih =>
    intro s
    simp only [processSells]
    split <;> rw [ih] <;> rfl

theorem processSells_sell_orders (c : Candle) (fee : ℚ) (l : List Order) :
    ∀ s : State, (processSells c fee s l).sell_orders
      = s.sell_orders ++ l.filter (fun o => !fillsSell c o) := by
  induction l with
  | nil => intro s; simp [processSells]
  | cons o rest ih =>
    intro s
    simp only [processSells]
    by_cases h : fillsSell c o
    · rw [if_pos h, ih]
      simp [fillSellOrder, List.filter_cons, h]
    · rw [if_neg h, ih]
      simp [List.filter_cons, h]

theorem processSells_filled_orders (c : Candle) (fee : ℚ) (l : List Order) :
    ∀ s : State, (processSells c fee s l).filled_orders
      = s.filled_orders
          ++ (l.filter (fillsSell c)).map (fun o => { o with status := "filled" }) := by
  induction l with
  | nil => intro s; simp [processSells]
  | cons o rest ih =>
    intro s
    simp only [processSells]
    by_cases h : fillsSell c o
    · rw [if_pos h, ih]
      simp [fillSellOrder, List.filter_cons, h]
    · rw [if_neg h, ih]
      simp [List.filter_cons, h]

theorem processSells_total_base (c : Candle) (fee : ℚ) (l : List Order) :
    ∀ s : State, (processSells c fee s l).total_base
      = s.total_base - sumOnHold (l.filter (fillsSell c)) := by
  induction l with
  | nil => intro s; simp [processSells, sumOnHold]
  | cons o rest ih =>
    intro s
    simp only [processSells]
    by_cases h : fillsSell c o
    · rw [if_pos h, ih]
      simp [fillSellOrder, List.filter_cons, h, sumOnHold_cons]
      ring
    · rw [if_neg h, ih]
      simp [List.filter_cons, h]

theorem processSells_total_quote (c : Candle) (fee : ℚ) (l : List Order) :
    ∀ s : State, (processSells c fee s l).total_quote
      = s.total_quote + sumSellFill fee (l.filter (fillsSell c)) := by
  induction l with
  | nil => intro s; simp [processSells, sumSellFill]
  | cons o rest ih =>
    intro s
    simp only [processSells]
    by_cases h : fillsSell c o
    · rw [if_pos h, ih]
      simp [fillSellOrder, List.filter_cons, h, sumSellFill]
      ring
    · rw [if_neg h, ih]
      simp [List.filter_cons, h]

theorem processSells_quote_available (c : Candle) (fee : ℚ) (l : List Order) :
    ∀ s : State, (processSells c fee s l).quote_available
      = s.quote_available + sumSellFill fee (l.filter (fillsSell c)) := by
  induction l with
  | nil => intro s; simp [processSells, sumSellFill]
  | cons o rest ih =>
    intro s
    simp only [processSells]
    by_cases h : fillsSell c o
    · rw [if_pos h, ih]
      simp [fillSellOrder, List.filter_cons, h, sumSellFill]
      ring
    · rw [if_neg h, ih]
      simp [List.filter_cons, h]

theorem processSells_number_of_transactions (c : Candle) (fee : ℚ) (l : List Order) :
    ∀ s : State, (processSells c fee s l).number_of_transactions
      = s.number_of_transactions + (l.filter (fillsSell c)).length := by
  induction l with
  | nil => intro s; simp [processSells]
  | cons o rest ih =>
    intro s
    simp only [processSells]
    by_cases h : fillsSell c o
    · rw [if_pos h, ih]
      simp [fillSellOrder, List.filter_cons, h]
      ring
    · rw [if_neg h, ih]
      simp [List.filter_cons, h]

theorem update_state_base (c : Candle) (fee : ℚ) (s : State) :
    (update_state c fee s).base = s.base := by
  simp [update_state, processSells_base, processBuys_base]

theorem update_state_buy_orders (c : Candle) (fee : ℚ) (s : State) :
    (update_state c fee s).buy_orders
      = s.buy_orders.filter (fun o => !fillsBuy c o) := by
  simp [update_state, processSells_buy_orders, processBuys_buy_orders]

theorem update_state_sell_orders (c : Candle) (fee : ℚ) (s : State) :
    (update_state c fee s).sell_orders
      = s.sell_orders.filter (fun o => !fillsSell c o) := by
  simp [update_state, processSells_sell_orders, processBuys_sell_orders]

theorem update_state_cancelled_orders (c : Candle) (fee : ℚ) (s : State) :
    (update_state c fee s).cancelled_orders = s.cancelled_orders := by
  simp [update_state, processSells_cancelled_orders, processBuys_cancelled_orders]

theorem update_state_filled_orders (c : Candle) (fee : ℚ) (s : State) :
    (update_state c fee s).filled_orders
      = s.filled_orders
          ++ (s.buy_orders.filter (fillsBuy c)).map (fun o => { o with status := "filled" })
          ++ (s.sell_orders.filter (fillsSell c)).map (fun o => { o with status := "filled" }) := by
  simp [update_state, processSells_filled_orders, processBuys_filled_orders,
    processBuys_sell_orders]

theorem update_state_total_quote (c : Candle) (fee : ℚ) (s : State) :
    (update_state c fee s).total_quote
      = s.total_quote - sumOnHold (s.buy_orders.filter (fillsBuy c))
          + sumSellFill fee (s.sell_orders.filter (fillsSell c)) := by
  simp [update_state, processSells_total_quote, processBuys_total_quote,
    processBuys_sell_orders]

theorem update_state_quote_available (c : Candle) (fee : ℚ) (s : State) :
    (update_state c fee s).quote_available
      = s.quote_available + sumSellFill fee (s.sell_orders.filter (fillsSell c)) := by
  simp [update_state, processSells_quote_available, processBuys_quote_available,
    processBuys_sell_orders]

theorem update_state_total_base (c : Candle) (fee : ℚ) (s : State) :
    (update_state c fee s).total_base
      = s.total_base + sumBuyFill fee (s.buy_orders.filter (fillsBuy c))
          - sumOnHold (s.sell_orders.filter (fillsSell c)) := by
  simp [update_state, processSells_total_base, processBuys_total_base,
    processBuys_sell_orders]

theorem update_state_base_available (c : Candle) (fee : ℚ) (s : State) :
    (update_state c fee s).base_available
      = s.base_available + sumBuyFill fee (s.buy_orders.filter (fillsBuy c)) := by
  simp [update_state, processSells_base_available, processBuys_base_available]

theorem update_state_number_of_transactions (c : Candle) (fee : ℚ) (s : State) :
    (update_state c fee s).number_of_transactions
      = s.number_of_transactions + (s.buy_orders.filter (fillsBuy c)).length
          + (s.sell_orders.filter (fillsSell c)).length := by
  simp [update_state, processSells_number_of_transactions,
    processBuys_number_of_transactions, processBuys_sell_orders]

/-- The Ledger balance invariant of the spec (sections 3 and 8):
`quote_available` plus the reservations of the open buy orders equals
`total_quote`, and symmetrically for the base side. -/
def Inv (s : State) : Prop :=
  s.quote_available + sumOnHold s.buy_orders = s.total_quote ∧
  s.base_available + sumOnHold s.sell_orders = s.total_base

theorem update_state_inv (c : Candle) (fee : ℚ) (s : State) (h : Inv s) :
    Inv (update_state c fee s) := by
  obtain ⟨h1, h2⟩ := h
  have hb := sumOnHold_filter_partition (fillsBuy c) s.buy_orders
  have hs := sumOnHold_filter_partition (fillsSell c) s.sell_orders
  constructor
  · rw [update_state_quote_available, update_state_buy_orders, update_state_total_quote]
    linarith
  · rw [update_state_base_available, update_state_sell_orders, update_state_total_base]
    linarith

theorem removeById_sumOnHold (oid : Nat) (l : List Order) (o : Order)
    (rest : List Order) (h : removeById oid l = some (o, rest)) :
    sumOnHold l = o.on_hold + sumOnHold rest := by
  induction l generalizing o rest with
  | nil => simp [removeById] at h
  | cons a tail ih =>
    simp only [removeById] at h
    split at h
    · cases h
      rw [sumOnHold_cons]
    · cases hr : removeById oid tail with
      | none => rw [hr] at h; cases h
      | some q =>
        rw [hr] at h
        cases h
        rw [sumOnHold_cons, ih q.1 q.2 hr, sumOnHold_cons]
        ring

theorem place_limit_buy_order_inv (cl : Client) (b : String) (L a : ℚ)
    (cl' : Client) (o : Order)
    (hok : place_limit_buy_order cl b L a = Except.ok (cl', o))
    (h : Inv cl.state) : Inv cl'.state := by
  simp only [place_limit_buy_order] at hok
  split at hok
  · simp only [Except.ok.injEq, Prod.mk.injEq] at hok
    obtain ⟨hcl, ho⟩ := hok
    subst hcl
    obtain ⟨h1, h2⟩ := h
    constructor
    · simp [sumOnHold_append, sumOnHold_cons, sumOnHold_nil, placedBuyOrder]
      linarith
    · simpa using h2
  · cases hok

theorem place_limit_sell_order_inv (cl : Client) (b : String) (L a : ℚ)
    (cl' : Client) (o : Order)
    (hok : place_limit_sell_order cl b L a = Except.ok (cl', o))
    (h : Inv cl.state) : Inv cl'.state := by
  simp only [place_limit_sell_order] at hok
  split at hok
  · simp only [Except.ok.injEq, Prod.mk.injEq] at hok
    obtain ⟨hcl, ho⟩ := hok
    subst hcl
    obtain ⟨h1, h2⟩ := h
    constructor
    · simpa using h1
    · simp [sumOnHold_append, sumOnHold_cons, sumOnHold_nil]
      linarith
  · cases hok

theorem place_market_buy_order_inv (cl : Client) (b : String) (a : ℚ)
    (cl' : Client) (o : Order)
    (hok : place_market_buy_order cl b a = Except.ok (cl', o))
    (h : Inv cl.state) : Inv cl'.state := by
  simp only [place_market_buy_order] at hok
  split at hok
  · cases hok
  · split at hok
    · simp only [Except.ok.injEq, Prod.mk.injEq] at hok
      obtain ⟨hcl, ho⟩ := hok
      subst hcl
      obtain ⟨h1, h2⟩ := h
      constructor
      · simp
        linarith
      · simp
        linarith
    · cases hok

theorem place_market_sell_order_inv (cl : Client) (b : String) (a : ℚ)
    (cl' : Client) (o : Order)
    (hok : place_market_sell_order cl b a = Except.ok (cl', o))
    (h : Inv cl.state) : Inv cl'.state := by
  simp only [place_market_sell_order] at hok
  split at hok
  · cases hok
  · split at hok
    · simp only [Except.ok.injEq, Prod.mk.injEq] at hok
      obtain ⟨hcl, ho⟩ := hok
      subst hcl
      obtain ⟨h1, h2⟩ := h
      constructor
      · simp
        linarith
      · simp
        linarith
    · cases hok

theorem cancel_order_inv (cl : Client) (oid : Nat)
    (cl' : Client) (o : Order)
    (hok : cancel_order cl oid = Except.ok (cl', o))
    (h : Inv cl.state) : Inv cl'.state := by
  obtain ⟨h1, h2⟩ := h
  simp only [cancel_order] at hok
  split at hok
  · cases hok
  · split at hok
    · cases hok
    · split at hok
      · -- buy branch
        split at hok
        · cases hok
        · rename_i p heq
          simp only [Except.ok.injEq, Prod.mk.injEq] at hok
          obtain ⟨hcl, ho⟩ := hok
          subst hcl
          have hsum := removeById_sumOnHold oid cl.state.buy_orders p.1 p.2 heq
          constructor
          · simp
            linarith
          · simpa using h2
      · -- sell branch
        split at hok
        · cases hok
        · rename_i p heq
          simp only [Except.ok.injEq, Prod.mk.injEq] at hok
          obtain ⟨hcl, ho⟩ := hok
          subst hcl
          have hsum := removeById_sumOnHold oid cl.state.sell_orders p.1 p.2 heq
          constructor
          · simpa using h1
          · simp
            linarith

theorem client_update_state_inv (cl : Client) (h : Inv cl.state) :
    Inv (client_update_state cl).state := by
  unfold client_update_state
  split
  · exact h
  · exact update_state_inv _ _ _ h

/-- The operation alphabet of claim C1: every mutating call a Strategy can
make on the simulated execution client, plus candle updates from the
driver. -/
inductive Op where
  | placeLimitBuy (base : String) (limit_price amount_in_quote : ℚ)
  | placeLimitSell (base : String) (limit_price amount_in_base : ℚ)
  | placeMarketBuy (base : String) (amount_in_quote : ℚ)
  | placeMarketSell (base : String) (amount_in_base : ℚ)
  | cancelOrder (oid : Nat)
  | setCandle (c : Candle)
  | updateState
deriving DecidableEq, Repr

/-- Run one operation against the client.  A failing operation raises; per
the spec (section 7) every mutating operation is all-or-nothing, so the
client is returned unchanged in that case. -/
def applyOp (cl : Client) (op : Op) : Client :=
  match op with
  | Op.placeLimitBuy b L a =>
    match place_limit_buy_order cl b L a with
    | Except.ok p => p.1
    | Except.error _ => cl
  | Op.placeLimitSell b L a =>
    match place_limit_sell_order cl b L a with
    | Except.ok p => p.1
    | Except.error _ => cl
  | Op.placeMarketBuy b a =>
    match place_market_buy_order cl b a with
    | Except.ok p => p.1
    | Except.error _ => cl
  | Op.placeMarketSell b a =>
    match place_market_sell_order cl b a with
    | Except.ok p => p.1
    | Except.error _ => cl
  | Op.cancelOrder oid =>
    match cancel_order cl oid with
    | Except.ok p => p.1
    | Except.error _ => cl
  | Op.setCandle c => update_current_candle cl c
  | Op.updateState => client_update_state cl

theorem applyOp_inv (cl : Client) (op : Op) (h : Inv cl.state) :
    Inv (applyOp cl op).state := by
  cases op with
  | placeLimitBuy b L a =>
    simp only [applyOp]
    cases hr : place_limit_buy_order cl b L a with
    | error e => exact h
    | ok p => exact place_limit_buy_order_inv cl b L a p.1 p.2 (by rw [hr]) h
  | placeLimitSell b L a =>
    simp only [applyOp]
    cases hr : place_limit_sell_order cl b L a with
    | error e => exact h
    | ok p => exact place_limit_sell_order_inv cl b L a p.1 p.2 (by rw [hr]) h
  | placeMarketBuy b a =>
    simp only [applyOp]
    cases hr : place_market_buy_order cl b a with
    | error e => exact h
    | ok p => exact place_market_buy_order_inv cl b a p.1 p.2 (by rw [hr]) h
  | placeMarketSell b a =>
    simp only [applyOp]
    cases hr : place_market_sell_order cl b a with
    | error e => exact h
    | ok p => exact place_market_sell_order_inv cl b a p.1 p.2 (by rw [hr]) h
  | cancelOrder oid =>
    simp only [applyOp]
    cases hr : cancel_order cl oid with
    | error e => exact h
    | ok p => exact cancel_order_inv cl oid p.1 p.2 (by rw [hr]) h
  | setCandle c => exact h
  | updateState => exact client_update_state_inv cl h

theorem foldl_applyOp_inv (ops : List Op) :
    ∀ cl : Client, Inv cl.state → Inv ((ops.foldl applyOp cl).state) := by
  induction ops with
  | nil => intro cl h; exact h
  | cons op rest ih =>
    intro cl h
    exact ih (applyOp cl op) (applyOp_inv cl op h)

theorem init_inv (base : String) (total_base total_quote : ℚ) :
    Inv (State.init base total_base total_quote) := by
  constructor <;> simp [State.init, sumOnHold]

/-- Claim C1: for every Ledger reachable from a fresh Ledger by any sequence
of limit and market placements, cancels, candle updates and reconciliation
calls — each failing call leaving the Ledger unchanged, per the spec's
all-or-nothing rule — `quote_available` plus the sum of `on_hold` over the
open buy orders equals `total_quote`, and `base_available` plus the sum of
`on_hold` over the open sell orders equals `total_base`. -/
theorem claim_C1_reachable_ledger_invariant (base : String)
    (total_base total_quote fee_limit fee_market : ℚ) (ops : List Op) :
    Inv ((ops.foldl applyOp
      (Client.init (State.init base total_base total_quote)
        fee_limit fee_market)).state) :=
  foldl_applyOp_inv ops _ (init_inv base total_base total_quote)

theorem processBuys_all_keep (c : Candle) (fee : ℚ) (l : List Order)
    (h : ∀ o ∈ l, fillsBuy c o = false) :
    ∀ s : State, processBuys c fee s l = { s with buy_orders := s.buy_orders ++ l } := by
  induction l with
  | nil => intro s; simp [processBuys]
  | cons o rest ih =>
    intro s
    have ho : fillsBuy c o = false := h o (by simp)
    have hrest : ∀ o' ∈ rest, fillsBuy c o' = false := fun o' m => h o' (by simp [m])
    simp only [processBuys, ho]
    exact (ih hrest _).trans (by simp)

theorem processSells_all_keep (c : Candle) (fee : ℚ) (l : List Order)
    (h : ∀ o ∈ l, fillsSell c o = false) :
    ∀ s : State, processSells c fee s l = { s with sell_orders := s.sell_orders ++ l } := by
  induction l with
  | nil => intro s; simp [processSells]
  | cons o rest ih =>
    intro s
    have ho : fillsSell c o = false := h o (by simp)
    have hrest : ∀ o' ∈ rest, fillsSell c o' = false := fun o' m => h o' (by simp [m])
    simp only [processSells, ho]
    exact (ih hrest _).trans (by simp)

theorem update_state_buy_not_fill (c : Candle) (fee : ℚ) (s : State) :
    ∀ o ∈ (update_state c fee s).buy_orders, fillsBuy c o = false := by
  intro o ho
  rw [update_state_buy_orders] at ho
  simpa using (List.mem_filter.mp ho).2

theorem update_state_sell_not_fill (c : Candle) (fee : ℚ) (s : State) :
    ∀ o ∈ (update_state c fee s).sell_orders, fillsSell c o = false := by
  intro o ho
  rw [update_state_sell_orders] at ho
  simpa using (List.mem_filter.mp ho).2

theorem update_state_idempotent (c : Candle) (fee : ℚ) (s : State) :
    update_state c fee (update_state c fee s) = update_state c fee s := by
  have hb := update_state_buy_not_fill c fee s
  have hs := update_state_sell_not_fill c fee s
  show update_state c fee (update_state c fee s) = update_state c fee s
  conv_lhs => rw [update_state]
  rw [processBuys_all_keep c fee _ hb]
  simp only []
  rw [processSells_all_keep c fee _ hs]
  simp

/-- Claim C8: a second `update_state` with the same current candle and no
placements or cancels in between produces no additional fills and leaves the
whole client — Ledger included — identical to its state after the first
call (idempotent reconciliation). -/
theorem claim_C8_update_state_idempotent (cl : Client) :
    client_update_state (client_update_state cl) = client_update_state cl := by
  cases hc : cl.current_candle with
  | none => simp [client_update_state, hc]
  | some c =>
    simp only [client_update_state, hc]
    rw [update_state_idempotent]

theorem buy_survives (fee : ℚ) (o : Order) (L : ℚ) (hL : o.limit_price = some L)
    (cs : List Candle) (h : ∀ c' ∈ cs, ¬ c'.low ≤ L) :
    ∀ s : State, o ∈ s.buy_orders →
      o ∈ (cs.foldl (fun t c' => update_state c' fee t) s).buy_orders := by
  induction cs with
  | nil => intro s hs; simpa using hs
  | cons c' rest ih =>
    intro s hs
    have hstep : o ∈ (update_state c' fee s).buy_orders := by
      rw [update_state_buy_orders]
      refine List.mem_filter.mpr ⟨hs, ?_⟩
      have hf : fillsBuy c' o = false := by
        simp [fillsBuy, hL]
        exact not_le.mp (h c' (by simp))
      simp [hf]
    simpa using ih (fun x hx => h x (by simp [hx])) (update_state c' fee s) hstep

theorem sell_survives (fee : ℚ) (o : Order) (L : ℚ) (hL : o.limit_price = some L)
    (cs : List Candle) (h : ∀ c' ∈ cs, ¬ L ≤ c'.high) :
    ∀ s : State, o ∈ s.sell_orders →
      o ∈ (cs.foldl (fun t c' => update_state c' fee t) s).sell_orders := by
  induction cs with
  | nil => intro s hs; simpa using hs
  | cons c' rest ih =>
    intro s hs
    have hstep : o ∈ (update_state c' fee s).sell_orders := by
      rw [update_state_sell_orders]
      refine List.mem_filter.mpr ⟨hs, ?_⟩
      have hf : fillsSell c' o = false := by
        simp [fillsSell, hL]
        exact not_le.mp (h c' (by simp))
      simp [hf]
    simpa using ih (fun x hx => h x (by simp [hx])) (update_state c' fee s) hstep

/-- Claim C3: a buy limit order open at reconciliation fills exactly when
`candle.low ≤ limit_price`, moving (status `filled`) into `filled_orders` and
out of the open buys; a sell fills exactly when `candle.high ≥ limit_price`;
`total_base` is credited with `on_hold / limit_price * (1 - fee_limit_order)`
per filled buy and `total_quote` with `on_hold * limit_price *
(1 - fee_limit_order)` per filled sell; `number_of_transactions` grows by the
number of fills; an order meeting neither condition stays open and unchanged
across any number of reconciliations whose candles do not meet its
condition. -/
theorem claim_C3_limit_fill_semantics (s : State) (c : Candle) (fee : ℚ) :
    (∀ o ∈ s.buy_orders, ∀ L : ℚ, o.limit_price = some L → c.low ≤ L →
        { o with status := "filled" } ∈ (update_state c fee s).filled_orders ∧
        o ∉ (update_state c fee s).buy_orders) ∧
    (∀ o ∈ s.buy_orders, ∀ L : ℚ, o.limit_price = some L → ¬ c.low ≤ L →
        o ∈ (update_state c fee s).buy_orders) ∧
    (∀ o ∈ s.sell_orders, ∀ L : ℚ, o.limit_price = some L → L ≤ c.high →
        { o with status := "filled" } ∈ (update_state c fee s).filled_orders ∧
        o ∉ (update_state c fee s).sell_orders) ∧
    (∀ o ∈ s.sell_orders, ∀ L : ℚ, o.limit_price = some L → ¬ L ≤ c.high →
        o ∈ (update_state c fee s).sell_orders) ∧
    (update_state c fee s).total_base
      = s.total_base + sumBuyFill fee (s.buy_orders.filter (fillsBuy c))
          - sumOnHold (s.sell_orders.filter (fillsSell c)) ∧
    (update_state c fee s).total_quote
      = s.total_quote - sumOnHold (s.buy_orders.filter (fillsBuy c))
          + sumSellFill fee (s.sell_orders.filter (fillsSell c)) ∧
    (update_state c fee s).number_of_transactions
      = s.number_of_transactions + (s.buy_orders.filter (fillsBuy c)).length
          + (s.sell_orders.filter (fillsSell c)).length ∧
    (∀ o ∈ s.buy_orders, ∀ L : ℚ, o.limit_price = some L →
      ∀ cs : List Candle, (∀ c' ∈ cs, ¬ c'.low ≤ L) →
        o ∈ (cs.foldl (fun t c' => update_state c' fee t) s).buy_orders) ∧
    (∀ o ∈ s.sell_orders, ∀ L : ℚ, o.limit_price = some L →
      ∀ cs : List Candle, (∀ c' ∈ cs, ¬ L ≤ c'.high) →
        o ∈ (cs.foldl (fun t c' => update_state c' fee t) s).sell_orders) := by
  refine ⟨?_, ?_, ?_, ?_, update_state_total_base c fee s,
    update_state_total_quote c fee s, update_state_number_of_transactions c fee s,
    ?_, ?_⟩
  · intro o ho L hL hlow
    have hfill : fillsBuy c o = true := by simp [fillsBuy, hL, hlow]
    constructor
    · rw [update_state_filled_orders]
      exact List.mem_append_left _ (List.mem_append_right _
        (List.mem_map_of_mem _ (List.mem_filter.mpr ⟨ho, hfill⟩)))
    · rw [update_state_buy_orders]
      intro hmem
      have := (List.mem_filter.mp hmem).2
      simp [hfill] at this
  · intro o ho L hL hlow
    have hfill : fillsBuy c o = false := by simp [fillsBuy, hL, hlow]
    rw [update_state_buy_orders]
    exact List.mem_filter.mpr ⟨ho, by simp [hfill]⟩
  · intro o ho L hL hhigh
    have hfill : fillsSell c o = true := by simp [fillsSell, hL, hhigh]
    constructor
    · rw [update_state_filled_orders]
      exact List.mem_append_right _
        (List.mem_map_of_mem _ (List.mem_filter.mpr ⟨ho, hfill⟩))
    · rw [update_state_sell_orders]
      intro hmem
      have := (List.mem_filter.mp hmem).2
      simp [hfill] at this
  · intro o ho L hL hhigh
    have hfill : fillsSell c o = false := by simp [fillsSell, hL, hhigh]
    rw [update_state_sell_orders]
    exact List.mem_filter.mpr ⟨ho, by simp [hfill]⟩
  · intro o ho L hL cs hcs
    exact buy_survives fee o L hL cs hcs s ho
  · intro o ho L hL cs hcs
    exact sell_survives fee o L hL cs hcs s ho

/-- Open buy order of the end-to-end scenario of the spec (section 8): 200
quote reserved at limit 19500. -/
def sampleBuy1 : Order :=
  { order_id := 0, market := "BTC", side := "buy", limit_price := some 19500
    on_hold := 200, status := "open", time_created := 0, is_taker := false }

/-- Open buy order of the end-to-end scenario: 300 quote at limit 19000. -/
def sampleBuy2 : Order :=
  { order_id := 1, market := "BTC", side := "buy", limit_price := some 19000
    on_hold := 300, status := "open", time_created := 1, is_taker := false }

/-- Open buy order of the end-to-end scenario: 400 quote at limit 18000. -/
def sampleBuy3 : Order :=
  { order_id := 2, market := "BTC", side := "buy", limit_price := some 18000
    on_hold := 400, status := "open", time_created := 2, is_taker := false }

/-- Open sell order filling at the sample candle (limit 20000 ≤ high). -/
def sampleSell1 : Order :=
  { order_id := 3, market := "BTC", side := "sell", limit_price := some 20000
    on_hold := 2, status := "open", time_created := 3, is_taker := false }

/-- Open sell order not filling at the sample candle (limit 21000 > high). -/
def sampleSell2 : Order :=
  { order_id := 4, market := "BTC", side := "sell", limit_price := some 21000
    on_hold := 1, status := "open", time_created := 4, is_taker := false }

/-- The candle of the end-to-end scenario: low 19000, high 20000. -/
def sampleCandle : Candle :=
  { openPrice := 19500, high := 20000, low := 19000, closePrice := 19100 }

/-- A Ledger holding the five sample orders, with the invariant satisfied:
100 + 200 + 300 + 400 = 1000 on the quote side, 1 + 2 + 1 = 4 on the base
side. -/
def sampleState : State :=
  { base := "BTC", total_base := 4, total_quote := 1000
    quote_available := 100, base_available := 1
    buy_orders := [sampleBuy1, sampleBuy2, sampleBuy3]
    sell_orders := [sampleSell1, sampleSell2]
    filled_orders := [], cancelled_orders := []
    orders := [sampleBuy1, sampleBuy2, sampleBuy3, sampleSell1, sampleSell2]
    number_of_transactions := 0 }

theorem claim_C3_limit_fill_semantics_witness :
    ({ sampleBuy1 with status := "filled" }
        ∈ (update_state sampleCandle (3/2000) sampleState).filled_orders) ∧
    (sampleBuy1 ∉ (update_state sampleCandle (3/2000) sampleState).buy_orders) ∧
    (sampleBuy3 ∈ (update_state sampleCandle (3/2000) sampleState).buy_orders) ∧
    ({ sampleSell1 with status := "filled" }
        ∈ (update_state sampleCandle (3/2000) sampleState).filled_orders) ∧
    (sampleSell2 ∈ (update_state sampleCandle (3/2000) sampleState).sell_orders) ∧
    (sampleBuy3 ∈ ([sampleCandle].foldl
        (fun t c' => update_state c' (3/2000) t) sampleState).buy_orders) := by
  have h := claim_C3_limit_fill_semantics sampleState sampleCandle (3/2000)
  refine ⟨(h.1 sampleBuy1 (by simp [sampleState]) 19500 rfl (by decide)).1,
    (h.1 sampleBuy1 (by simp [sampleState]) 19500 rfl (by decide)).2,
    h.2.1 sampleBuy3 (by simp [sampleState]) 18000 rfl (by decide),
    (h.2.2.1 sampleSell1 (by simp [sampleState]) 20000 rfl (by decide)).1,
    h.2.2.2.1 sampleSell2 (by simp [sampleState]) 21000 rfl (by decide),
    h.2.2.2.2.2.2.2.1 sampleBuy3 (by simp [sampleState]) 18000 rfl
      [sampleCandle] (by intro c' hc'; simp at hc'; subst hc'; decide)⟩

theorem getById_append_not_mem (oid : Nat) (l₁ l₂ : List Order)
    (h : ∀ q ∈ l₁, q.order_id ≠ oid) :
    getById oid (l₁ ++ l₂) = getById oid l₂ := by
  induction l₁ with
  | nil => rfl
  | cons q t ih =>
    have hq : ¬ q.order_id = oid := h q (by simp)
    simp only [List.cons_append, getById]
    rw [if_neg hq]
    exact ih fun r hr => h r (by simp [hr])

theorem cancel_order_buy_ok (cl : Client) (oid : Nat) (stored : Order)
    (hget : getById oid cl.state.orders = some stored)
    (hopen : stored.status = "open") (hside : stored.side = "buy")
    (p : Order × List Order)
    (hrem : removeById oid cl.state.buy_orders = some p) :
    cancel_order cl oid
      = Except.ok
        ({ cl with
            state := { cl.state with
              buy_orders := p.2
              quote_available := cl.state.quote_available + p.1.on_hold
              cancelled_orders :=
                cl.state.cancelled_orders ++ [{ p.1 with status := "cancelled" }]
              orders := markStatus oid "cancelled" cl.state.orders } },
          { p.1 with status := "cancelled" }) := by
  simp [cancel_order, hget, hopen, hside, hrem]

theorem removeById_append_last (oid : Nat) (l₁ : List Order) (o : Order)
    (h : ∀ q ∈ l₁, q.order_id ≠ oid) (ho : o.order_id = oid) :
    removeById oid (l₁ ++ [o]) = some (o, l₁) := by
  induction l₁ with
  | nil => simp [removeById, ho]
  | cons q t ih =>
    have hq : ¬ q.order_id = oid := h q (by simp)
    have ht := ih fun r hr => h r (by simp [hr])
    simp [removeById, hq, ht]

/-- Claim C4: `place_limit_buy_order` requires `amount_in_quote ≤
quote_available` and `limit_price > 0`, failing with
`InsufficientBalanceError` and leaving the Ledger unchanged otherwise; a
successful placement of amount `a` reduces `quote_available` by exactly `a`,
leaves `total_quote` (and the base balances) unchanged, and cancelling the
placed order restores `quote_available` by exactly `a` with no other balance
change.  The freshness hypothesis says the client's id counter has not been
used by an existing order, which holds for every client the constructor and
the placement calls can produce. -/
theorem claim_C4_place_buy_cancel (cl : Client) (b : String) (L a : ℚ)
    (hfresh : ∀ q ∈ cl.state.orders ++ cl.state.buy_orders,
      q.order_id ≠ cl.next_id) :
    (¬ (a ≤ cl.state.quote_available ∧ 0 < L) →
        place_limit_buy_order cl b L a
            = Except.error ExecError.insufficientBalance ∧
        applyOp cl (Op.placeLimitBuy b L a) = cl) ∧
    (∀ cl' : Client, ∀ o : Order,
      place_limit_buy_order cl b L a = Except.ok (cl', o) →
        o.on_hold = a ∧
        cl'.state.quote_available = cl.state.quote_available - a ∧
        cl'.state.total_quote = cl.state.total_quote ∧
        cl'.state.total_base = cl.state.total_base ∧
        cl'.state.base_available = cl.state.base_available ∧
        ∃ cl'' : Client, cancel_order cl' o.order_id
            = Except.ok (cl'', { o with status := "cancelled" }) ∧
          cl''.state.quote_available = cl.state.quote_available ∧
          cl''.state.total_quote = cl.state.total_quote ∧
          cl''.state.total_base = cl.state.total_base ∧
          cl''.state.base_available = cl.state.base_available) := by
  constructor
  · intro hne
    have herr : place_limit_buy_order cl b L a
        = Except.error ExecError.insufficientBalance := by
      unfold place_limit_buy_order
      rw [if_neg hne]
    exact ⟨herr, by simp [applyOp, herr]⟩
  · intro cl' o hok
    simp only [place_limit_buy_order] at hok
    split at hok
    · simp only [Except.ok.injEq, Prod.mk.injEq] at hok
      obtain ⟨hcl, ho⟩ := hok
      subst hcl
      subst ho
      refine ⟨rfl, by simp, by simp, by simp, by simp, ?_⟩
      have hg1 : ∀ q ∈ cl.state.orders, q.order_id ≠ cl.next_id :=
        fun q hq => hfresh q (List.mem_append_left _ hq)
      have hg2 : ∀ q ∈ cl.state.buy_orders, q.order_id ≠ cl.next_id :=
        fun q hq => hfresh q (List.mem_append_right _ hq)
      have hget : getById cl.next_id
          (cl.state.orders ++ [placedBuyOrder cl b L a])
          = some (placedBuyOrder cl b L a) := by
        rw [getById_append_not_mem _ _ _ hg1]
        simp [getById, placedBuyOrder]
      have hrem : removeById cl.next_id
          (cl.state.buy_orders ++ [placedBuyOrder cl b L a])
          = some (placedBuyOrder cl b L a, cl.state.buy_orders) :=
        removeById_append_last _ _ _ hg2 rfl
      have hcan := cancel_order_buy_ok
        ({ cl with
            state := { cl.state with
              quote_available := cl.state.quote_available - a
              buy_orders := cl.state.buy_orders ++ [placedBuyOrder cl b L a]
              orders := cl.state.orders ++ [placedBuyOrder cl b L a] }
            next_id := cl.next_id + 1 })
        cl.next_id (placedBuyOrder cl b L a) hget rfl rfl
        (placedBuyOrder cl b L a, cl.state.buy_orders) hrem
      exact ⟨_, hcan, by simp [placedBuyOrder], by simp, by simp, by simp⟩
    · cases hok

/-- A fresh client over a 1000-quote Ledger, used as concrete input for the
placement/cancel round trip. -/
def sampleClient : Client :=
  Client.init (State.init "BTC" 0 1000) (3/2000) (1/400)

/-- The order `place_limit_buy_order sampleClient BTC 19000 500` creates. -/
def samplePlaced : Order :=
  { order_id := 0, market := "BTC", side := "buy", limit_price := some 19000
    on_hold := 500, status := "open", time_created := 0, is_taker := false }

/-- The client state after that placement. -/
def sampleClient1 : Client :=
  { sampleClient with
      state := { sampleClient.state with
        quote_available := 500
        buy_orders := [samplePlaced]
        orders := [samplePlaced] }
      next_id := 1 }

theorem claim_C4_place_buy_cancel_witness :
    (place_limit_buy_order sampleClient "BTC" 19000 2000
        = Except.error ExecError.insufficientBalance) ∧
    sampleClient1.state.quote_available
      = sampleClient.state.quote_available - 500 ∧
    sampleClient1.state.total_quote = sampleClient.state.total_quote ∧
    ∃ cl'' : Client, cancel_order sampleClient1 samplePlaced.order_id
        = Except.ok (cl'', { samplePlaced with status := "cancelled" }) ∧
      cl''.state.quote_available = sampleClient.state.quote_available ∧
      cl''.state.total_quote = sampleClient.state.total_quote ∧
      cl''.state.total_base = sampleClient.state.total_base ∧
      cl''.state.base_available = sampleClient.state.base_available := by
  have hf := claim_C4_place_buy_cancel sampleClient "BTC" 19000 2000
    (by simp [sampleClient, Client.init, State.init])
  have hs := claim_C4_place_buy_cancel sampleClient "BTC" 19000 500
    (by simp [sampleClient, Client.init, State.init])
  have hok : place_limit_buy_order sampleClient "BTC" 19000 500
      = Except.ok (sampleClient1, samplePlaced) := by
    simp [place_limit_buy_order, placedBuyOrder, sampleClient, sampleClient1,
      samplePlaced, Client.init, State.init]
    norm_num
  obtain ⟨-, hqa, htq, -, -, hcan⟩ := hs.2 sampleClient1 samplePlaced hok
  exact ⟨(hf.1 (by decide)).1, hqa, htq, hcan⟩

/-- One record of the historical OHLCV series supplied to `backtest`;
timestamps are embedded as integer minutes. -/
structure Row where
  time : ℤ
  openPrice : ℚ
  high : ℚ
  low : ℚ
  closePrice : ℚ
  volume : ℚ
deriving DecidableEq, Repr

/-- The OHLCV candle a series record carries, as handed to
`update_current_candle` by the backtest loop. -/
def Row.toCandle (r : Row) : Candle :=
  { openPrice := r.openPrice, high := r.high, low := r.low
    closePrice := r.closePrice }

/-- The input series of `Strategy.backtest`: the schema facts the validation
checks interrogate (presence of columns, datetime dtype of the time column)
together with the records themselves. -/
structure DataFrame where
  columns : List String
  time_is_datetime : Bool
  rows : List Row
deriving DecidableEq, Repr

/-- The error taxonomy raised by `Strategy.backtest` (from
`dijkies.exceptions`); `emptySimulationRange` stands for the `IndexError` the
Python `iloc[0]` raises when no record remains to simulate. -/
inductive BTError where
  | timeColumnNotDefined
  | invalidTypeForTimeColumn
  | dataWindowShorterThanAnalysisWindow
  | missingOHLCVColumns
  | invalidExchangeAssetClient
  | emptySimulationRange
deriving DecidableEq, Repr

/-- Modelled from the spec (section 4.4) and the missing `performance`
module: the pure result row, passthrough OHLCV plus current total value and
return since start. -/
structure PerformanceInformationRow where
  time : ℤ
  openPrice : ℚ
  high : ℚ
  low : ℚ
  closePrice : ℚ
  volume : ℚ
  total_value_in_quote : ℚ
  return_since_start : ℚ
deriving DecidableEq, Repr

/-- Modelled from the spec (section 4.4):
`PerformanceInformationRow.from_objects(candle, start_candle, state,
start_value_in_quote)` computes the current total value at the candle's open
and the return since start. -/
def PerformanceInformationRow.from_objects (candle start_candle : Row)
    (s : State) (start_value_in_quote : ℚ) : PerformanceInformationRow :=
  { time := candle.time, openPrice := candle.openPrice, high := candle.high
    low := candle.low, closePrice := candle.closePrice, volume := candle.volume
    total_value_in_quote := s.total_value_in_quote candle.openPrice
    return_since_start :=
      s.total_value_in_quote candle.openPrice / start_value_in_quote - 1 }

/-- Translated from `get_analysis_df` in `Strategy.backtest`
(`strategy.py`, lines 106-115): the records with timestamp in the closed
interval from `current_time - look_back_in_min` to `current_time`. -/
def get_analysis_df (data : List Row) (current_time look_back_in_min : ℤ) :
    List Row :=
  data.filter fun r =>
    decide (current_time - look_back_in_min ≤ r.time)
      && decide (r.time ≤ current_time)

/-- `data.time.max() - data.time.min()` in minutes; `none` when the series is
empty (the pandas aggregation yields NaN there). -/
def timespanMinutes (df : DataFrame) : Option ℤ :=
  match (df.rows.map Row.time).max?, (df.rows.map Row.time).min? with
  | some mx, some mn => some (mx - mn)
  | _, _ => none

/-- The history check of `Strategy.backtest` (`strategy.py`, line 91):
`lookback_in_min > timespan_data_in_min`.  An empty series compares `NaN`,
which is falsy in Python, so it does not trigger the check. -/
def historyTooShort (df : DataFrame) (lookback : ℤ) : Bool :=
  match timespanMinutes df with
  | some ts => decide (lookback > ts)
  | none => false

/-- The strategy object as `Strategy.backtest` sees it: whether the attached
executor is the simulated (`BacktestExchangeAssetClient`) variant, the
simulated client itself, the declared analysis window, and the subclass's
abstract `execute` decision step acting on the client. -/
structure BTStrategy where
  executor_is_backtest : Bool
  client : Client
  analysis_dataframe_size_in_minutes : ℤ
  executeStep : List Row → Client → Client

/-- Translated from `Strategy.run` (`strategy.py`, lines 32-34): reconcile
(`update_state`), then run the decision logic on the analysis window. -/
def BTStrategy.run (st : BTStrategy) (data : List Row) (cl : Client) : Client :=
  st.executeStep data (client_update_state cl)

/-- Translated from the `for` loop of `Strategy.backtest` (`strategy.py`,
lines 117-127): per candle, build the analysis window, set the current candle
on the executor, invoke `run` (which reconciles before the decision logic),
then append one performance row computed from the mutated Ledger. -/
def backtestLoop (st : BTStrategy) (data : List Row) (lookback : ℤ)
    (start_candle : Row) (start_value : ℚ) :
    Client → List Row → Client × List PerformanceInformationRow
  | cl, [] => (cl, [])
  | cl, candle :: rest =>
    let analysis_df := get_analysis_df data candle.time lookback
    let cl1 := update_current_candle cl candle.toCandle
    let cl2 := st.run analysis_df cl1
    let row := PerformanceInformationRow.from_objects candle start_candle
      cl2.state start_value
    let p := backtestLoop st data lookback start_candle start_value cl2 rest
    (p.1, row :: p.2)

/-- Translated from `Strategy.backtest` (`strategy.py`, lines 75-129):
validation in source order (time column present, time column datetime-typed,
series span vs. analysis window, OHLCV columns present, executor type), then
the simulated range is every record at or after `first_timestamp +
analysis_window_minutes` and the loop above runs over it. -/
def backtest (st : BTStrategy) (df : DataFrame) :
    Except BTError (Client × List PerformanceInformationRow) :=
  if "time" ∉ df.columns then Except.error BTError.timeColumnNotDefined
  else if ¬ df.time_is_datetime then Except.error BTError.invalidTypeForTimeColumn
  else if historyTooShort df st.analysis_dataframe_size_in_minutes then
    Except.error BTError.dataWindowShorterThanAnalysisWindow
  else if ¬ (["open", "high", "low", "close", "volume"].all
      fun c => df.columns.contains c) then
    Except.error BTError.missingOHLCVColumns
  else if ¬ st.executor_is_backtest then
    Except.error BTError.invalidExchangeAssetClient
  else
    match df.rows with
    | [] => Except.error BTError.emptySimulationRange
    | first :: _ =>
      let start_time := first.time + st.analysis_dataframe_size_in_minutes
      let simulation_df := df.rows.filter fun r => decide (start_time ≤ r.time)
      match simulation_df.head? with
      | none => Except.error BTError.emptySimulationRange
      | some start_candle =>
        Except.ok (backtestLoop st df.rows
          st.analysis_dataframe_size_in_minutes start_candle
          (st.client.state.total_value_in_quote start_candle.openPrice)
          st.client simulation_df)

/-- Claim C2: at every simulated step the analysis window built by
`get_analysis_df` holds exactly the input records whose timestamp lies in the
closed interval from `candle.time - analysis_window_minutes` to
`candle.time`; in particular no record timestamped after the current candle
is ever included (the structural lookahead guard). -/
theorem claim_C2_analysis_window_no_lookahead (data : List Row)
    (t lookback : ℤ) :
    (∀ r : Row, r ∈ get_analysis_df data t lookback
      ↔ r ∈ data ∧ t - lookback ≤ r.time ∧ r.time ≤ t) ∧
    (∀ r ∈ get_analysis_df data t lookback, ¬ t < r.time) := by
  have hmem : ∀ r : Row, r ∈ get_analysis_df data t lookback
      ↔ r ∈ data ∧ t - lookback ≤ r.time ∧ r.time ≤ t := by
    intro r
    simp [get_analysis_df, List.mem_filter]
  exact ⟨hmem, fun r hr => not_lt.mpr ((hmem r).mp hr).2.2⟩

/-- A constant-price series record, for concrete backtest inputs. -/
def rowAt (t : ℤ) : Row :=
  { time := t, openPrice := 100, high := 110, low := 90
    closePrice := 105, volume := 1 }

/-- A three-record series at minutes 0, 60 and 120. -/
def sampleRows : List Row :=
  [rowAt 0, rowAt 60, rowAt 120]

theorem claim_C2_analysis_window_witness :
    rowAt 0 ∈ get_analysis_df sampleRows 60 60 ∧
    ¬ (60 : ℤ) < (rowAt 0).time ∧
    rowAt 120 ∉ get_analysis_df sampleRows 60 60 := by
  have h := claim_C2_analysis_window_no_lookahead sampleRows 60 60
  have hmem : rowAt 0 ∈ get_analysis_df sampleRows 60 60 :=
    (h.1 (rowAt 0)).mpr ⟨by decide, by decide, by decide⟩
  refine ⟨hmem, h.2 (rowAt 0) hmem, fun hbad => ?_⟩
  exact absurd ((h.1 (rowAt 120)).mp hbad).2.2 (by decide)

theorem foldl_max_choice (xs : List ℤ) :
    ∀ x : ℤ, xs.foldl max x = x ∨ xs.foldl max x ∈ xs := by
  induction xs with
  | nil => intro x; exact Or.inl rfl
  | cons y ys ih =>
    intro x
    simp only [List.foldl_cons]
    rcases ih (max x y) with h | h
    · rcases max_choice x y with hm | hm
      · exact Or.inl (h.trans hm)
      · exact Or.inr (by rw [h, hm]; exact List.mem_cons_self _ _)
    · exact Or.inr (List.mem_cons_of_mem _ h)

theorem foldl_min_choice (xs : List ℤ) :
    ∀ x : ℤ, xs.foldl min x = x ∨ xs.foldl min x ∈ xs := by
  induction xs with
  | nil => intro x; exact Or.inl rfl
  | cons y ys ih =>
    intro x
    simp only [List.foldl_cons]
    rcases ih (min x y) with h | h
    · rcases min_choice x y with hm | hm
      · exact Or.inl (h.trans hm)
      · exact Or.inr (by rw [h, hm]; exact List.mem_cons_self _ _)
    · exact Or.inr (List.mem_cons_of_mem _ h)

theorem simulation_nonempty (df : DataFrame) (lookback : ℤ) (first : Row)
    (rest : List Row) (hrows : df.rows = first :: rest)
    (hsorted : List.Pairwise (fun r₁ r₂ => r₁.time ≤ r₂.time) df.rows)
    (hspan : historyTooShort df lookback = false) :
    ∃ r ∈ df.rows, first.time + lookback ≤ r.time := by
  rw [hrows] at hsorted ⊢
  have hts : timespanMinutes df
      = some ((rest.map Row.time).foldl max first.time
          - (rest.map Row.time).foldl min first.time) := by
    unfold timespanMinutes
    rw [hrows, List.map_cons, List.max?_cons', List.min?_cons']
  have hlb : lookback ≤ (rest.map Row.time).foldl max first.time
      - (rest.map Row.time).foldl min first.time := by
    rw [historyTooShort, hts] at hspan
    simpa using hspan
  have hfirst_le_min : first.time ≤ (rest.map Row.time).foldl min first.time := by
    rcases foldl_min_choice (rest.map Row.time) first.time with h | h
    · rw [h]
    · obtain ⟨r, hr, hrt⟩ := List.mem_map.mp h
      rw [← hrt]
      exact (List.pairwise_cons.mp hsorted).1 r hr
  rcases foldl_max_choice (rest.map Row.time) first.time with h | h
  · refine ⟨first, List.mem_cons_self _ _, ?_⟩
    rw [h] at hlb
    linarith
  · obtain ⟨r, hr, hrt⟩ := List.mem_map.mp h
    refine ⟨r, List.mem_cons_of_mem _ hr, ?_⟩
    rw [hrt]
    linarith

theorem backtestLoop_client (st : BTStrategy) (data : List Row) (lookback : ℤ)
    (start_candle : Row) (start_value : ℚ) (candles : List Row) :
    ∀ cl : Client,
      (backtestLoop st data lookback start_candle start_value cl candles).1
        = candles.foldl (fun c candle =>
            st.executeStep (get_analysis_df data candle.time lookback)
              (client_update_state (update_current_candle c candle.toCandle))) cl := by
  induction candles with
  | nil => intro cl; rfl
  | cons candle rest ih =>
    intro cl
    simp only [backtestLoop, BTStrategy.run, List.foldl_cons]
    exact ih _

theorem backtestLoop_times (st : BTStrategy) (data : List Row) (lookback : ℤ)
    (start_candle : Row) (start_value : ℚ) (candles : List Row) :
    ∀ cl : Client,
      (backtestLoop st data lookback start_candle start_value cl candles).2.map
          PerformanceInformationRow.time = candles.map Row.time := by
  induction candles with
  | nil => intro cl; rfl
  | cons candle rest ih =>
    intro cl
    simp only [backtestLoop, List.map_cons]
    exact congrArg _ (ih _)

/-- Claim C5: on a valid, time-sorted, nonempty input series, `backtest`
succeeds; the simulated range is exactly the records with timestamp at or
after `first_timestamp + analysis_window_minutes`, processed in ascending
time order; the performance rows are one per simulated candle, in that
order; and the final client results from, per candle, setting the current
candle, running `update_state`, and only then the decision logic on that
candle's analysis window. -/
theorem claim_C5_backtest_driver (st : BTStrategy) (df : DataFrame)
    (first : Row) (rest : List Row) (hrows : df.rows = first :: rest)
    (hsorted : List.Pairwise (fun r₁ r₂ => r₁.time ≤ r₂.time) df.rows)
    (htime : "time" ∈ df.columns) (hdt : df.time_is_datetime = true)
    (hspan : historyTooShort df st.analysis_dataframe_size_in_minutes = false)
    (hohlcv : (["open", "high", "low", "close", "volume"].all
        fun c => df.columns.contains c) = true)
    (hexec : st.executor_is_backtest = true) :
    ∃ pair : Client × List PerformanceInformationRow,
      backtest st df = Except.ok pair ∧
      pair.2.map PerformanceInformationRow.time
        = (df.rows.filter fun r =>
            decide (first.time + st.analysis_dataframe_size_in_minutes
              ≤ r.time)).map Row.time ∧
      pair.2.length
        = (df.rows.filter fun r =>
            decide (first.time + st.analysis_dataframe_size_in_minutes
              ≤ r.time)).length ∧
      List.Pairwise (fun r₁ r₂ => r₁.time ≤ r₂.time)
        (df.rows.filter fun r =>
          decide (first.time + st.analysis_dataframe_size_in_minutes ≤ r.time)) ∧
      pair.1
        = (df.rows.filter fun r =>
            decide (first.time + st.analysis_dataframe_size_in_minutes
              ≤ r.time)).foldl
          (fun c candle =>
            st.executeStep
              (get_analysis_df df.rows candle.time
                st.analysis_dataframe_size_in_minutes)
              (client_update_state (update_current_candle c candle.toCandle)))
          st.client := by
  obtain ⟨r0, hr0mem, hr0time⟩ := simulation_nonempty df
    st.analysis_dataframe_size_in_minutes first rest hrows hsorted hspan
  rw [hrows]
  rw [hrows] at hr0mem hsorted
  have hr0sim : r0 ∈ (first :: rest).filter fun r =>
      decide (first.time + st.analysis_dataframe_size_in_minutes ≤ r.time) :=
    List.mem_filter.mpr ⟨hr0mem, by simpa using hr0time⟩
  cases hsim : (first :: rest).filter fun r =>
      decide (first.time + st.analysis_dataframe_size_in_minutes ≤ r.time) with
  | nil => rw [hsim] at hr0sim; cases hr0sim
  | cons sc simrest =>
    have hbt : backtest st df = Except.ok (backtestLoop st (first :: rest)
        st.analysis_dataframe_size_in_minutes sc
        (st.client.state.total_value_in_quote sc.openPrice)
        st.client (sc :: simrest)) := by
      simp only [backtest]
      rw [if_neg (not_not_intro htime), if_neg (not_not_intro hdt),
        if_neg (by simp [hspan]), if_neg (not_not_intro hohlcv),
        if_neg (not_not_intro hexec), hrows]
      simp only [hsim, List.head?]
    have htimes := backtestLoop_times st (first :: rest)
      st.analysis_dataframe_size_in_minutes sc
      (st.client.state.total_value_in_quote sc.openPrice) (sc :: simrest)
      st.client
    have hlen : (backtestLoop st (first :: rest)
        st.analysis_dataframe_size_in_minutes sc
        (st.client.state.total_value_in_quote sc.openPrice)
        st.client (sc :: simrest)).2.length = (sc :: simrest).length := by
      have h1 := congrArg List.length htimes
      simpa using h1
    exact ⟨_, hbt, htimes, hlen, hsim ▸ hsorted.filter _,
      backtestLoop_client st (first :: rest) _ sc _ (sc :: simrest) st.client⟩

/-- A no-op decision step over the sample client: the backtest driver is
exercised with a strategy that places no orders. -/
def sampleBTStrategy : BTStrategy :=
  { executor_is_backtest := true
    client := sampleClient
    analysis_dataframe_size_in_minutes := 60
    executeStep := fun _ cl => cl }

/-- The sample series as a valid backtest input. -/
def sampleDF : DataFrame :=
  { columns := ["time", "open", "high", "low", "close", "volume"]
    time_is_datetime := true
    rows := sampleRows }

theorem claim_C5_backtest_driver_witness :
    ∃ pair : Client × List PerformanceInformationRow,
      backtest sampleBTStrategy sampleDF = Except.ok pair ∧
      pair.2.length
        = ((sampleDF.rows.filter fun r =>
            decide ((rowAt 0).time
              + sampleBTStrategy.analysis_dataframe_size_in_minutes
              ≤ r.time))).length := by
  obtain ⟨pair, hok, -, hlen, -, -⟩ := claim_C5_backtest_driver sampleBTStrategy
    sampleDF (rowAt 0) [rowAt 60, rowAt 120] rfl (by decide) (by decide) rfl
    (by decide) (by decide) rfl
  exact ⟨pair, hok, hlen⟩

theorem backtest_ok_implies (st : BTStrategy) (df : DataFrame)
    (pair : Client × List PerformanceInformationRow)
    (h : backtest st df = Except.ok pair) :
    "time" ∈ df.columns ∧ df.time_is_datetime = true ∧
    historyTooShort df st.analysis_dataframe_size_in_minutes = false ∧
    (["open", "high", "low", "close", "volume"].all
      fun c => df.columns.contains c) = true ∧
    st.executor_is_backtest = true := by
  unfold backtest at h
  split at h
  · simp at h
  · split at h
    · simp at h
    · split at h
      · simp at h
      · split at h
        · simp at h
        · split at h
          · simp at h
          · rename_i h1 h2 h3 h4 h5
            exact ⟨not_not.mp h1, not_not.mp h2, by simpa using h3,
              not_not.mp h4, not_not.mp h5⟩

theorem backtest_history_error_implies (st : BTStrategy) (df : DataFrame)
    (h : backtest st df
      = Except.error BTError.dataWindowShorterThanAnalysisWindow) :
    historyTooShort df st.analysis_dataframe_size_in_minutes = true := by
  simp only [backtest] at h
  split at h
  · simp at h
  · split at h
    · simp at h
    · split at h
      · assumption
      · split at h
        · simp at h
        · split at h
          · simp at h
          · split at h
            · simp at h
            · split at h
              · simp at h
              · simp at h

/-- Claim C6: `backtest` raises a validation error — returning no result and
so touching no candle and no Ledger — whenever the series lacks the time
column, the time column is not datetime-typed, any OHLCV column is missing,
the series span is smaller than the declared analysis window, or the
attached executor is not the simulated variant; with span exactly equal to
the window the history error is not raised. -/
theorem claim_C6_backtest_validation (st : BTStrategy) (df : DataFrame) :
    ("time" ∉ df.columns → ∃ e, backtest st df = Except.error e) ∧
    (df.time_is_datetime = false → ∃ e, backtest st df = Except.error e) ∧
    ((["open", "high", "low", "close", "volume"].all
        fun c => df.columns.contains c) = false →
      ∃ e, backtest st df = Except.error e) ∧
    (∀ ts : ℤ, timespanMinutes df = some ts →
      st.analysis_dataframe_size_in_minutes > ts →
      ∃ e, backtest st df = Except.error e) ∧
    (st.executor_is_backtest = false → ∃ e, backtest st df = Except.error e) ∧
    (timespanMinutes df = some st.analysis_dataframe_size_in_minutes →
      backtest st df ≠ Except.error BTError.dataWindowShorterThanAnalysisWindow) := by
  have herr : ∀ P : Prop,
      (∀ pair, backtest st df = Except.ok pair → P) → ¬ P →
      ∃ e, backtest st df = Except.error e := by
    intro P hok hnp
    cases hb : backtest st df with
    | error e => exact ⟨e, rfl⟩
    | ok pair => exact absurd (hok pair hb) hnp
  refine ⟨?_, ?_, ?_, ?_, ?_, ?_⟩
  · intro h
    exact herr _ (fun pair hb => (backtest_ok_implies st df pair hb).1) h
  · intro h
    refine herr _ (fun pair hb => (backtest_ok_implies st df pair hb).2.1) ?_
    simp [h]
  · intro h
    refine herr _
      (fun pair hb => (backtest_ok_implies st df pair hb).2.2.2.1) ?_
    exact fun hc => by rw [hc] at h; exact Bool.noConfusion h
  · intro ts hts hlt
    refine herr _
      (fun pair hb => (backtest_ok_implies st df pair hb).2.2.1) ?_
    rw [historyTooShort, hts]
    simp [hlt]
  · intro h
    refine herr _
      (fun pair hb => (backtest_ok_implies st df pair hb).2.2.2.2) ?_
    simp [h]
  · intro hts h
    have := backtest_history_error_implies st df h
    rw [historyTooShort, hts] at this
    simp at this

/-- The sample series stripped of its time column. -/
def sampleDFNoTime : DataFrame :=
  { columns := ["open", "high", "low", "close", "volume"]
    time_is_datetime := true
    rows := sampleRows }

/-- A valid series whose span (60 minutes) exactly equals the sample
strategy's analysis window. -/
def sampleDFSpanEqual : DataFrame :=
  { columns := ["time", "open", "high", "low", "close", "volume"]
    time_is_datetime := true
    rows := [rowAt 0, rowAt 60] }

theorem claim_C6_backtest_validation_witness :
    (∃ e, backtest sampleBTStrategy sampleDFNoTime = Except.error e) ∧
    backtest sampleBTStrategy sampleDFSpanEqual
      ≠ Except.error BTError.dataWindowShorterThanAnalysisWindow := by
  have h1 := claim_C6_backtest_validation sampleBTStrategy sampleDFNoTime
  have h2 := claim_C6_backtest_validation sampleBTStrategy sampleDFSpanEqual
  exact ⟨h1.1 (by decide), h2.2.2.2.2.2 (by decide)⟩

/-- Claim C10: the validation checks of `backtest` run in the fixed source
order — time column present, time column datetime-typed, span vs. analysis
window, OHLCV columns present, executor type — so a series shorter than the
analysis window raises the history error even when OHLCV columns are also
missing or the executor is also non-simulated. -/
theorem claim_C10_validation_order (st : BTStrategy) (df : DataFrame) :
    ("time" ∉ df.columns →
      backtest st df = Except.error BTError.timeColumnNotDefined) ∧
    ("time" ∈ df.columns → df.time_is_datetime = false →
      backtest st df = Except.error BTError.invalidTypeForTimeColumn) ∧
    ("time" ∈ df.columns → df.time_is_datetime = true →
      historyTooShort df st.analysis_dataframe_size_in_minutes = true →
      backtest st df
        = Except.error BTError.dataWindowShorterThanAnalysisWindow) ∧
    ("time" ∈ df.columns → df.time_is_datetime = true →
      historyTooShort df st.analysis_dataframe_size_in_minutes = false →
      (["open", "high", "low", "close", "volume"].all
          fun c => df.columns.contains c) = false →
      backtest st df = Except.error BTError.missingOHLCVColumns) ∧
    ("time" ∈ df.columns → df.time_is_datetime = true →
      historyTooShort df st.analysis_dataframe_size_in_minutes = false →
      (["open", "high", "low", "close", "volume"].all
          fun c => df.columns.contains c) = true →
      st.executor_is_backtest = false →
      backtest st df = Except.error BTError.invalidExchangeAssetClient) := by
  refine ⟨?_, ?_, ?_, ?_, ?_⟩
  · intro h1
    unfold backtest
    rw [if_pos h1]
  · intro h1 h2
    unfold backtest
    rw [if_neg (not_not_intro h1), if_pos (by simp [h2])]
  · intro h1 h2 h3
    unfold backtest
    rw [if_neg (not_not_intro h1), if_neg (by simp [h2]), if_pos (by simp [h3])]
  · intro h1 h2 h3 h4
    unfold backtest
    rw [if_neg (not_not_intro h1), if_neg (by simp [h2]),
      if_neg (by simp [h3]),
      if_pos (show ¬ _ from fun hc => by rw [hc] at h4; exact Bool.noConfusion h4)]
  · intro h1 h2 h3 h4 h5
    unfold backtest
    rw [if_neg (not_not_intro h1), if_neg (by simp [h2]),
      if_neg (by simp [h3]), if_neg (not_not_intro h4), if_pos (by simp [h5])]

/-- The sample strategy with a non-simulated executor attached. -/
def sampleBTStrategyLive : BTStrategy :=
  { sampleBTStrategy with executor_is_backtest := false }

/-- A series with the time column only, datetime-typed, spanning 30 minutes:
shorter than the 60-minute window, OHLCV missing, executor non-simulated. -/
def sampleDFShort : DataFrame :=
  { columns := ["time"]
    time_is_datetime := true
    rows := [rowAt 0, rowAt 30] }

theorem claim_C10_validation_order_witness :
    backtest sampleBTStrategyLive sampleDFShort
      = Except.error BTError.dataWindowShorterThanAnalysisWindow :=
  (claim_C10_validation_order sampleBTStrategyLive sampleDFShort).2.2.1
    (by decide) rfl (by decide)

/-- The stored bot status of `deployment.py` (`BOT_STATUS`). -/
inductive BotStatus where
  | active
  | paused
  | stopped
deriving DecidableEq, Repr

/-- The persistable shape of a `Strategy` object: its executor handle, its
data-pipeline handle, its Ledger, and the subclass's own parameters
(e.g. the RSI thresholds of the test strategy). -/
structure StrategyBox where
  executor : Option Client
  data_pipeline : Option Unit
  state : State
  params : List ℚ
deriving DecidableEq, Repr

/-- Translated from `Strategy.__getstate__` (`strategy.py`, lines 58-62):
copy the attribute dict, null the `executor` and `data_pipeline` entries,
keep everything else.  Pickling a strategy serializes exactly this. -/
def strategy_getstate (s : StrategyBox) : StrategyBox :=
  { s with executor := none, data_pipeline := none }

/-- The strategy files of one bot in `LocalStrategyRepository`, one slot per
status directory (person, exchange and bot id fixed). -/
structure Repo where
  active_slot : Option StrategyBox
  paused_slot : Option StrategyBox
  stopped_slot : Option StrategyBox
deriving DecidableEq, Repr

def Repo.get (r : Repo) : BotStatus → Option StrategyBox
  | BotStatus.active => r.active_slot
  | BotStatus.paused => r.paused_slot
  | BotStatus.stopped => r.stopped_slot

def Repo.set (r : Repo) : BotStatus → Option StrategyBox → Repo
  | BotStatus.active, v => { r with active_slot := v }
  | BotStatus.paused, v => { r with paused_slot := v }
  | BotStatus.stopped, v => { r with stopped_slot := v }

theorem Repo.get_set_same (r : Repo) (st : BotStatus) (v : Option StrategyBox) :
    (r.set st v).get st = v := by
  cases st <;> rfl

theorem Repo.get_set_other (r : Repo) (st st' : BotStatus)
    (v : Option StrategyBox) (h : st ≠ st') :
    (r.set st v).get st' = r.get st' := by
  cases st <;> cases st' <;> first | exact absurd rfl h | rfl

/-- Translated from `LocalStrategyRepository.store` (`deployment.py`, lines
58-73): `pickle.dump` serializes through `Strategy.__getstate__`, so the
slot receives the stripped strategy. -/
def repo_store (r : Repo) (box : StrategyBox) (status : BotStatus) : Repo :=
  r.set status (some (strategy_getstate box))

/-- Translated from `LocalStrategyRepository.read` (`deployment.py`, lines
75-87). -/
def repo_read (r : Repo) (status : BotStatus) : Option StrategyBox :=
  r.get status

/-- Translated from `LocalStrategyRepository.change_status` (`deployment.py`,
lines 89-106): early return when the statuses coincide, otherwise the stored
file moves from the old status directory to the new one. -/
def repo_change_status (r : Repo) (from_status to_status : BotStatus) : Repo :=
  if from_status = to_status then r
  else (r.set to_status (r.get from_status)).set from_status none

/-- Translated from the backtest branch of `Bot.set_executor`
(`deployment.py`, lines 152-171): attach a fresh
`BacktestExchangeAssetClient(strategy.state, 0.0025, 0.0015)` to the loaded
strategy (the live `bitvavo` branch constructs a network client, outside
this embedding). -/
def set_executor (box : StrategyBox) : StrategyBox :=
  { box with executor := some (Client.init box.state (1/400) (3/2000)) }

/-- Translated from `Bot.run` (`deployment.py`, lines 173-199): read the
stored strategy, attach a fresh executor, run one step; on success store the
strategy back under the same status; on failure store it (with the Ledger as
mutated so far), move the stored file from the current status to `paused`,
and re-raise.  `step` abstracts `strategy.run(data)`: it returns the mutated
Ledger, or the raised message together with the Ledger as mutated up to the
failure (Python mutates the shared `state` in place).  A missing stored file
raises without touching the repository. -/
def bot_run (r : Repo) (status : BotStatus)
    (step : StrategyBox → Except (String × State) State) :
    Repo × Option String :=
  match repo_read r status with
  | none => (r, some "strategy not found")
  | some box =>
    match step (set_executor box) with
    | Except.ok s' =>
      (repo_store r { set_executor box with state := s' } status, none)
    | Except.error es =>
      (repo_change_status
        (repo_store r { set_executor box with state := es.2 } status)
        status BotStatus.paused, some es.1)

/-- Claim C7: when the strategy's run step raises, `Bot.run` persists the
strategy with its Ledger as mutated so far under its current status, then
transitions the stored file to `paused` (so it ends in the paused slot and —
when the run started from another status — leaves that slot empty), and
re-raises the failure; on success it persists the strategy under the same
status and raises nothing. -/
theorem claim_C7_bot_run_failure_pauses (r : Repo) (status : BotStatus)
    (box : StrategyBox) (hread : repo_read r status = some box)
    (step : StrategyBox → Except (String × State) State) :
    (∀ s' : State, step (set_executor box) = Except.ok s' →
      bot_run r status step
        = (repo_store r { set_executor box with state := s' } status, none)) ∧
    (∀ e : String, ∀ s' : State,
      step (set_executor box) = Except.error (e, s') →
      (bot_run r status step).2 = some e ∧
      (bot_run r status step).1.get BotStatus.paused
        = some (strategy_getstate { set_executor box with state := s' }) ∧
      (status ≠ BotStatus.paused →
        (bot_run r status step).1.get status = none)) := by
  constructor
  · intro s' hs
    simp only [bot_run, hread, hs]
  · intro e s' hs
    have hbr : bot_run r status step
        = (repo_change_status
            (repo_store r { set_executor box with state := s' } status)
            status BotStatus.paused, some e) := by
      simp only [bot_run, hread, hs]
    refine ⟨by rw [hbr], ?_, ?_⟩
    · rw [hbr]
      unfold repo_change_status
      by_cases hsp : status = BotStatus.paused
      · rw [if_pos hsp]
        subst hsp
        unfold repo_store
        rw [Repo.get_set_same]
      · rw [if_neg hsp, Repo.get_set_other _ _ _ _ hsp, Repo.get_set_same]
        unfold repo_store
        rw [Repo.get_set_same]
    · intro hsp
      rw [hbr]
      unfold repo_change_status
      rw [if_neg hsp, Repo.get_set_same]

/-- A persisted strategy with a fresh 1000-quote Ledger and the RSI
thresholds of the test fixture as parameters. -/
def sampleStrategyBox : StrategyBox :=
  { executor := none, data_pipeline := none
    state := State.init "BTC" 0 1000, params := [35, 65] }

/-- A repository with the sample strategy stored under `active`. -/
def sampleRepo : Repo :=
  { active_slot := some sampleStrategyBox
    paused_slot := none, stopped_slot := none }

theorem claim_C7_bot_run_failure_pauses_witness :
    (bot_run sampleRepo BotStatus.active
        (fun b => Except.error ("BOOM", b.state))).2 = some "BOOM" ∧
    (bot_run sampleRepo BotStatus.active
        (fun b => Except.error ("BOOM", b.state))).1.get BotStatus.paused
      = some (strategy_getstate
          { set_executor sampleStrategyBox with
              state := (set_executor sampleStrategyBox).state }) ∧
    (bot_run sampleRepo BotStatus.active
        (fun b => Except.error ("BOOM", b.state))).1.get BotStatus.active
      = none := by
  have h := claim_C7_bot_run_failure_pauses sampleRepo BotStatus.active
    sampleStrategyBox rfl (fun b => Except.error ("BOOM", b.state))
  obtain ⟨h1, h2, h3⟩ :=
    h.2 "BOOM" (set_executor sampleStrategyBox).state rfl
  exact ⟨h1, h2, h3 (by decide)⟩

/-- Claim C9: serializing a strategy nulls exactly the executor and
data-pipeline handles and preserves every other field including the Ledger;
a stored strategy reads back as that stripped copy (executor `None`, State
intact); and the executor reconstructed on the loaded strategy — as
`Bot.run` does through `set_executor` before invoking the run step, see the
statement of the claim C7 theorem — is a fresh simulated client over the
preserved Ledger.  The last conjunct runs `Bot.run` end to end on a stored
strategy with a no-op step: the strategy it persists is the loaded copy with
the freshly attached executor (stripped again on store). -/
theorem claim_C9_strategy_serialization (box : StrategyBox) (r : Repo)
    (status : BotStatus) :
    (strategy_getstate box).executor = none ∧
    (strategy_getstate box).data_pipeline = none ∧
    (strategy_getstate box).state = box.state ∧
    (strategy_getstate box).params = box.params ∧
    repo_read (repo_store r box status) status
      = some (strategy_getstate box) ∧
    (set_executor (strategy_getstate box)).executor
      = some (Client.init box.state (1/400) (3/2000)) ∧
    (set_executor (strategy_getstate box)).state = box.state ∧
    (bot_run (repo_store r box status) status
        (fun b => Except.ok b.state)).1.get status
      = some (strategy_getstate (set_executor (strategy_getstate box))) := by
  have hread : repo_read (repo_store r box status) status
      = some (strategy_getstate box) := by
    unfold repo_read repo_store
    rw [Repo.get_set_same]
  refine ⟨rfl, rfl, rfl, rfl, hread, rfl, rfl, ?_⟩
  simp only [bot_run, hread]
  unfold repo_store
  rw [Repo.get_set_same]

end Dijkies
